import Mathlib

/-!
Verification of `nested_grid_plotter` (files `base_plotter.py`, `imshow.py`)
against its natural-language specification.

Python dictionaries are modelled as insertion-ordered association lists:
inserting an existing key updates the value in place (keeping the key's
position), inserting a new key appends it at the end.  Matplotlib objects
(axes, subfigures, artists, legend handles) are modelled by opaque numeric
identifiers; real-valued data is modelled by rationals, with `Option`
distinguishing NaN entries.
-/

set_option linter.unusedSectionVars false

namespace NGP

variable {κ α : Type} [DecidableEq κ]

/-- Keys of a dict, in insertion order (Python `d.keys()`). -/
def dictKeys (d : List (κ × α)) : List κ := d.map Prod.fst

/-- Python `d[k] = v`: update in place when `k` is present, append otherwise. -/
def pyInsert (d : List (κ × α)) (k : κ) (v : α) : List (κ × α) :=
  if k ∈ dictKeys d then d.map (fun kv => if kv.1 = k then (k, v) else kv)
  else d ++ [(k, v)]

/-- Python `d.get(k)` / `k in d`: the value at the first entry with key `k`. -/
def pyGet? (d : List (κ × α)) (k : κ) : Option α :=
  (d.find? (fun kv => kv.1 = k)).map Prod.snd

/-- Python `d.update(e)`: insert the entries of `e` into `d` in order. -/
def pyUpdate (d e : List (κ × α)) : List (κ × α) :=
  e.foldl (fun acc kv => pyInsert acc kv.1 kv.2) d

/-- `dict(...)` built from a sequence of key/value pairs, e.g. `dict(zip(ls, hs))`. -/
def dictOfPairs (ps : List (κ × α)) : List (κ × α) :=
  ps.foldl (fun acc kv => pyInsert acc kv.1 kv.2) []

/-- Sequential union of the dicts `ds`, a later dict overriding an earlier one.
`dict(ChainMap(*list(vals)[::-1]))` iterates keys in first-occurrence order of
`vals` and takes each key's value from the last dict of `vals` holding it,
which is exactly this left fold of Python updates. -/
def mergeDicts (ds : List (List (κ × α))) : List (κ × α) :=
  ds.foldl pyUpdate []

/-- First-occurrence de-duplication, keys already seen being skipped. -/
def pyDedupEx (seen : List κ) : List κ → List κ
  | [] => []
  | x :: xs => if x ∈ seen then pyDedupEx seen xs else x :: pyDedupEx (x :: seen) xs

/-- Keep the first occurrence of every element (Python dict key order). -/
def pyDedup (l : List κ) : List κ := pyDedupEx [] l

theorem dictKeys_nil : dictKeys ([] : List (κ × α)) = [] := rfl

theorem dictKeys_cons (p : κ × α) (d : List (κ × α)) :
    dictKeys (p :: d) = p.1 :: dictKeys d := rfl

theorem dictKeys_append (d e : List (κ × α)) :
    dictKeys (d ++ e) = dictKeys d ++ dictKeys e := by
  simp [dictKeys]

theorem pyGet?_nil (k : κ) : pyGet? ([] : List (κ × α)) k = none := rfl

theorem pyGet?_cons (p : κ × α) (d : List (κ × α)) (k : κ) :
    pyGet? (p :: d) k = if p.1 = k then some p.2 else pyGet? d k := by
  by_cases h : p.1 = k
  · simp [pyGet?, List.find?_cons_of_pos, h]
  · simp [pyGet?, List.find?_cons_of_neg, h]

theorem pyGet?_eq_none (d : List (κ × α)) (k : κ) :
    pyGet? d k = none ↔ k ∉ dictKeys d := by
  induction d with
  | nil => simp [pyGet?_nil, dictKeys_nil]
  | cons p d ih =>
    rw [pyGet?_cons, dictKeys_cons]
    by_cases h : p.1 = k
    · simp [h]
    · have hk : ¬ k = p.1 := fun hk => h hk.symm
      rw [if_neg h]
      simp [List.mem_cons, hk, ih]

theorem pyGet?_isSome (d : List (κ × α)) (k : κ) :
    (∃ v, pyGet? d k = some v) ↔ k ∈ dictKeys d := by
  constructor
  · rintro ⟨v, hv⟩
    by_contra hk
    rw [(pyGet?_eq_none d k).mpr hk] at hv
    cases hv
  · intro hk
    cases h : pyGet? d k with
    | none => exact absurd hk ((pyGet?_eq_none d k).mp h)
    | some v => exact ⟨v, rfl⟩

theorem dictKeys_pyInsert (d : List (κ × α)) (k : κ) (v : α) :
    dictKeys (pyInsert d k v) =
      if k ∈ dictKeys d then dictKeys d else dictKeys d ++ [k] := by
  unfold pyInsert
  by_cases h : k ∈ dictKeys d
  · simp only [h, if_true]
    unfold dictKeys
    rw [List.map_map]
    refine List.map_congr_left fun kv _ => ?_
    by_cases hk : kv.1 = k
    · simp [Function.comp, hk]
    · simp [Function.comp, hk]
  · simp only [h, if_false]
    rw [dictKeys_append]
    rfl

theorem pyGet?_map_update_of_ne (d : List (κ × α)) (k k' : κ) (v : α) (h : k ≠ k') :
    pyGet? (d.map (fun kv => if kv.1 = k then (k, v) else kv)) k' = pyGet? d k' := by
  induction d with
  | nil => rfl
  | cons p d ih =>
    by_cases hp : p.1 = k
    · simp only [List.map_cons, hp, if_true, pyGet?_cons]
      rw [if_neg h, if_neg (hp ▸ h), ih]
    · simp only [List.map_cons, hp, if_false, pyGet?_cons, ih]

theorem pyGet?_pyInsert (d : List (κ × α)) (k k' : κ) (v : α) :
    pyGet? (pyInsert d k v) k' = if k = k' then some v else pyGet? d k' := by
  unfold pyInsert
  by_cases hmem : k ∈ dictKeys d
  · simp only [hmem, if_true]
    by_cases hkk : k = k'
    · subst hkk
      obtain ⟨w, hw⟩ := (pyGet?_isSome d k).mpr hmem
      simp only [if_pos rfl]
      clear hmem
      induction d with
      | nil => simp [pyGet?_nil] at hw
      | cons p d ih =>
        rw [pyGet?_cons] at hw
        by_cases hp : p.1 = k
        · simp [List.map_cons, hp, pyGet?_cons]
        · rw [if_neg hp] at hw
          simp only [List.map_cons, hp, if_false, pyGet?_cons, if_neg hp]
          exact ih hw
    · rw [if_neg hkk, pyGet?_map_update_of_ne d k k' v hkk]
  · simp only [hmem, if_false]
    induction d with
    | nil => simp [pyGet?_cons, pyGet?_nil]
    | cons p d ih =>
      rw [dictKeys_cons] at hmem
      simp only [List.mem_cons, not_or] at hmem
      rw [List.cons_append, pyGet?_cons, pyGet?_cons, ih hmem.2]
      by_cases hp : p.1 = k'
      · have hkk : ¬ k = k' := fun hk => hmem.1 (hk.trans hp.symm)
        simp [hp, hkk]
      · simp [hp]

theorem dictKeys_nodup_pyInsert (d : List (κ × α)) (k : κ) (v : α)
    (h : (dictKeys d).Nodup) : (dictKeys (pyInsert d k v)).Nodup := by
  rw [dictKeys_pyInsert]
  by_cases hk : k ∈ dictKeys d
  · simpa [hk] using h
  · have hdisj : (dictKeys d).Disjoint [k] := by
      intro a ha hak
      rw [List.mem_singleton] at hak
      exact hk (hak ▸ ha)
    simpa [hk] using List.Nodup.append h (List.nodup_singleton k) hdisj

theorem mem_of_mem_pyInsert {d : List (κ × α)} {k : κ} {v : α} {q : κ × α}
    (h : q ∈ pyInsert d k v) : q = (k, v) ∨ q ∈ d := by
  unfold pyInsert at h
  by_cases hmem : k ∈ dictKeys d
  · rw [if_pos hmem] at h
    obtain ⟨kv, hkv, hq⟩ := List.mem_map.mp h
    by_cases hk : kv.1 = k
    · left; rw [← hq, if_pos hk]
    · right; rw [← hq, if_neg hk]; exact hkv
  · rw [if_neg hmem] at h
    rcases List.mem_append.mp h with h' | h'
    · right; exact h'
    · left; simpa using h'

theorem mem_iff_pyGet? {d : List (κ × α)} (hnd : (dictKeys d).Nodup) (k : κ) (v : α) :
    (k, v) ∈ d ↔ pyGet? d k = some v := by
  induction d with
  | nil => simp [pyGet?_nil]
  | cons p d ih =>
    rw [dictKeys_cons, List.nodup_cons] at hnd
    rw [List.mem_cons, pyGet?_cons]
    by_cases hp : p.1 = k
    · constructor
      · rintro (h | h)
        · rw [if_pos hp, ← h]
        · exfalso
          apply hnd.1
          rw [hp]
          exact List.mem_map.mpr ⟨(k, v), h, rfl⟩
      · intro h
        rw [if_pos hp] at h
        obtain ⟨p1, p2⟩ := p
        have hp' : p1 = k := hp
        injection h with h2
        left
        rw [← hp', ← h2]
    · rw [if_neg hp, ← ih hnd.2]
      constructor
      · rintro (h | h)
        · exact absurd (congrArg Prod.fst h.symm) hp
        · exact h
      · intro h
        exact Or.inr h

theorem pyUpdate_eq_append (d e : List (κ × α)) (hnd : (dictKeys e).Nodup)
    (hdisj : ∀ k ∈ dictKeys e, k ∉ dictKeys d) : pyUpdate d e = d ++ e := by
  induction e generalizing d with
  | nil => simp [pyUpdate]
  | cons p e ih =>
    rw [dictKeys_cons, List.nodup_cons] at hnd
    have hp : p.1 ∉ dictKeys d := by
      refine hdisj p.1 ?_
      rw [dictKeys_cons]
      exact List.mem_cons_self _ _
    have step : pyInsert d p.1 p.2 = d ++ [p] := by
      unfold pyInsert
      rw [if_neg hp]
    have hfold : pyUpdate d (p :: e) = pyUpdate (pyInsert d p.1 p.2) e := rfl
    rw [hfold, step, ih (d ++ [p]) hnd.2, List.append_assoc]
    · rfl
    · intro k hk
      rw [dictKeys_append]
      simp only [List.mem_append]
      rintro (h' | h')
      · refine hdisj k ?_ h'
        rw [dictKeys_cons]
        exact List.mem_cons_of_mem _ hk
      · rw [show dictKeys [p] = [p.1] from rfl, List.mem_singleton] at h'
        exact hnd.1 (h' ▸ hk)

theorem mergeDicts_eq_flatten (ds : List (List (κ × α)))
    (hnd : (dictKeys ds.flatten).Nodup) : mergeDicts ds = ds.flatten := by
  suffices h : ∀ acc, (dictKeys (acc ++ ds.flatten)).Nodup →
      ds.foldl pyUpdate acc = acc ++ ds.flatten by
    simpa using h [] (by simpa using hnd)
  clear hnd
  induction ds with
  | nil => simp [dictKeys]
  | cons d ds ih =>
    intro acc hacc
    rw [List.flatten_cons] at hacc
    rw [List.foldl_cons, List.flatten_cons]
    have hacc' : (dictKeys ((acc ++ d) ++ ds.flatten)).Nodup := by
      rw [List.append_assoc]
      exact hacc
    rw [dictKeys_append, dictKeys_append] at hacc
    have hsplit := List.nodup_append.mp hacc
    have hd : (dictKeys d).Nodup := (List.nodup_append.mp hsplit.2.1).1
    have hdisj : ∀ k ∈ dictKeys d, k ∉ dictKeys acc := fun k hk hka =>
      hsplit.2.2 hka (List.mem_append.mpr (Or.inl hk))
    rw [pyUpdate_eq_append acc d hd hdisj, ih (acc ++ d) hacc', List.append_assoc]

theorem mem_pyDedupEx (seen l : List κ) (k : κ) :
    k ∈ pyDedupEx seen l ↔ k ∈ l ∧ k ∉ seen := by
  induction l generalizing seen with
  | nil => simp [pyDedupEx]
  | cons x xs ih =>
    unfold pyDedupEx
    by_cases hx : x ∈ seen
    · rw [if_pos hx, ih]
      constructor
      · rintro ⟨h1, h2⟩
        exact ⟨List.mem_cons_of_mem _ h1, h2⟩
      · rintro ⟨h1, h2⟩
        rcases List.mem_cons.mp h1 with h | h
        · exact absurd (h ▸ hx) h2
        · exact ⟨h, h2⟩
    · rw [if_neg hx]
      simp only [List.mem_cons, ih, not_or]
      constructor
      · rintro (h | ⟨h1, h2⟩)
        · refine ⟨Or.inl h, ?_⟩
          rw [h]
          exact hx
        · exact ⟨Or.inr h1, h2.2⟩
      · rintro ⟨h1, h2⟩
        rcases h1 with h | h
        · exact Or.inl h
        · by_cases hkx : k = x
          · exact Or.inl hkx
          · exact Or.inr ⟨h, hkx, h2⟩

theorem mem_pyDedup (l : List κ) (k : κ) : k ∈ pyDedup l ↔ k ∈ l := by
  rw [pyDedup, mem_pyDedupEx]
  simp

theorem pyDedupEx_congr (s t l : List κ) (h : ∀ x, x ∈ s ↔ x ∈ t) :
    pyDedupEx s l = pyDedupEx t l := by
  induction l generalizing s t with
  | nil => rfl
  | cons x xs ih =>
    unfold pyDedupEx
    by_cases hx : x ∈ s
    · rw [if_pos hx, if_pos ((h x).mp hx), ih s t h]
    · rw [if_neg hx, if_neg (fun ht => hx ((h x).mpr ht))]
      congr 1
      refine ih (x :: s) (x :: t) fun y => ?_
      simp only [List.mem_cons]
      constructor
      · rintro (hy | hy)
        · exact Or.inl hy
        · exact Or.inr ((h y).mp hy)
      · rintro (hy | hy)
        · exact Or.inl hy
        · exact Or.inr ((h y).mpr hy)

/-!
## Embedding of `NestedGridPlotter` registries (`base_plotter.py`)

A built nested layout is a `grouped` dictionary: subfigure-group name to the
group's own axis dictionary (axis name to an opaque axis), exactly
`NestedGridPlotter.grouped_ax_dict` (and `grouped_sf_dict` for subfigures).
-/

/-- Python exceptions relevant to the registry operations. -/
inductive PyError where
  | keyError (key : String)
  | valueError (msg : String)
  deriving DecidableEq

/--
`NestedGridPlotter.ax_dict`:
`dict(ChainMap(*list(self.grouped_ax_dict.values())[::-1]))`.
`ChainMap` is given the group dictionaries reversed, so a lookup takes the
value from the last group holding the key, while `dict(...)` iterates keys in
first-occurrence order of the original group order: that is the sequential
Python update of the group dictionaries in order, `mergeDicts`. -/
def ax_dict (grouped : List (String × List (String × α))) : List (String × α) :=
  mergeDicts (grouped.map Prod.snd)

/-- `NestedGridPlotter.sf_dict`: same flattening over `grouped_sf_dict`. -/
def sf_dict (grouped_sf : List (String × List (String × α))) : List (String × α) :=
  mergeDicts (grouped_sf.map Prod.snd)

/-- The axis names of all groups in traversal order: the keys `k2` seen by the
`for k, v in self.grouped_ax_dict.items(): for k2 in v.keys()` loop of
`_check_if_subplot_names_are_unique`. -/
def allAxNames (grouped : List (String × List (String × α))) : List String :=
  grouped.flatMap (fun g => dictKeys g.2)

/-- `temp[name]` after the loop of `_check_if_subplot_names_are_unique`: one
entry `k` (the group name) per occurrence of `name` among the keys of group
`k`'s axis dictionary. -/
def tempGroups (grouped : List (String × List (String × α))) (name : String) :
    List String :=
  grouped.flatMap (fun g => ((dictKeys g.2).filter (fun k2 => k2 = name)).map
    (fun _ => g.1))

/-- `non_unique_keys = [k for k, v in temp.items() if len(v) > 1]`: the keys of
`temp` are the axis names in first-occurrence order. -/
def nonUniqueKeys (grouped : List (String × List (String × α))) : List String :=
  (pyDedup (allAxNames grouped)).filter (fun k => 1 < (tempGroups grouped k).length)

/-- `NestedGridPlotter._check_if_subplot_names_are_unique`: raise (an exception
whose message names `non_unique_keys`) when `non_unique_keys` is non-empty.
The raised exception is modelled as carrying the listed names. -/
def check_if_subplot_names_are_unique (grouped : List (String × List (String × α))) :
    Except (List String) Unit :=
  let non_unique_keys := nonUniqueKeys grouped
  if non_unique_keys.length = 1 then Except.error non_unique_keys
  else if 1 < non_unique_keys.length then Except.error non_unique_keys
  else Except.ok ()

/-- `NestedGridPlotter.get_axis`: `ValueError` naming the axis when the name is
not a key of `ax_dict`, the registered axis otherwise. -/
def get_axis (grouped : List (String × List (String × α))) (ax_name : String) :
    Except PyError α :=
  match pyGet? (ax_dict grouped) ax_name with
  | none => Except.error (PyError.valueError
      ("The axis \"" ++ ax_name ++ "\" does not exists!"))
  | some v => Except.ok v

/-- `NestedGridPlotter.get_subfigure`: `ValueError` naming the subfigure when
the name is not a key of `sf_dict`, the registered subfigure otherwise. -/
def get_subfigure (grouped_sf : List (String × List (String × α)))
    (subfig_name : String) : Except PyError α :=
  match pyGet? (sf_dict grouped_sf) subfig_name with
  | none => Except.error (PyError.valueError
      ("The subfigure \"" ++ subfig_name ++ "\" does not exists!"))
  | some v => Except.ok v

/-- How many groups of the layout use a given axis name (the spec's notion of a
name "used in two or more different subfigures"). -/
def numGroupsUsing (grouped : List (String × List (String × α))) (k : String) : Nat :=
  (grouped.filter (fun g => decide (k ∈ dictKeys g.2))).length

theorem count_eq_length_filter_eq (l : List String) (a : String) :
    l.count a = (l.filter (fun x => x = a)).length := by
  induction l with
  | nil => rfl
  | cons x xs ih =>
    by_cases h : x = a <;> simp [List.count_cons, h, ih, List.filter_cons]

theorem tempGroups_length (grouped : List (String × List (String × α)))
    (name : String) :
    (tempGroups grouped name).length = (allAxNames grouped).count name := by
  induction grouped with
  | nil => rfl
  | cons g gs ih =>
    rw [tempGroups, allAxNames, List.flatMap_cons, List.flatMap_cons,
      List.length_append, List.count_append, ← tempGroups, ← allAxNames, ih,
      List.length_map, count_eq_length_filter_eq, count_eq_length_filter_eq]

theorem nonUniqueKeys_eq_nil_iff (grouped : List (String × List (String × α))) :
    nonUniqueKeys grouped = [] ↔ (allAxNames grouped).Nodup := by
  rw [nonUniqueKeys, List.filter_eq_nil_iff, List.nodup_iff_count_le_one]
  constructor
  · intro h a
    by_cases ha : a ∈ allAxNames grouped
    · have := h a ((mem_pyDedup _ a).mpr ha)
      rw [tempGroups_length] at this
      simpa using this
    · rw [List.count_eq_zero.mpr ha]
      exact Nat.zero_le 1
  · intro h a ha
    rw [mem_pyDedup] at ha
    have := h a
    simp only [decide_eq_true_eq, not_lt, tempGroups_length]
    exact this

theorem mem_nonUniqueKeys (grouped : List (String × List (String × α)))
    (k : String) :
    k ∈ nonUniqueKeys grouped ↔ 2 ≤ (allAxNames grouped).count k := by
  rw [nonUniqueKeys, List.mem_filter, mem_pyDedup]
  constructor
  · rintro ⟨_, h2⟩
    rw [tempGroups_length] at h2
    simpa using h2
  · intro h
    have hmem : k ∈ allAxNames grouped := by
      by_contra hk
      rw [List.count_eq_zero.mpr hk] at h
      omega
    refine ⟨hmem, ?_⟩
    rw [tempGroups_length]
    simpa using h

theorem check_error_iff (grouped : List (String × List (String × α))) :
    (∃ l, check_if_subplot_names_are_unique grouped = Except.error l) ↔
      nonUniqueKeys grouped ≠ [] := by
  unfold check_if_subplot_names_are_unique
  by_cases h1 : (nonUniqueKeys grouped).length = 1
  · simp only [h1, if_true]
    constructor
    · intro _
      intro hnil
      rw [hnil] at h1
      simp at h1
    · intro _
      exact ⟨nonUniqueKeys grouped, rfl⟩
  · simp only [h1, if_false]
    by_cases h2 : 1 < (nonUniqueKeys grouped).length
    · simp only [h2, if_true]
      constructor
      · intro _
        intro hnil
        rw [hnil] at h2
        simp at h2
      · intro _
        exact ⟨nonUniqueKeys grouped, rfl⟩
    · simp only [h2, if_false]
      constructor
      · rintro ⟨l, hl⟩
        cases hl
      · intro hne
        exfalso
        have : (nonUniqueKeys grouped).length ≠ 0 := by
          intro h0
          exact hne (List.length_eq_zero.mp h0)
        omega

theorem check_error_val (grouped : List (String × List (String × α)))
    (l : List String)
    (h : check_if_subplot_names_are_unique grouped = Except.error l) :
    l = nonUniqueKeys grouped := by
  unfold check_if_subplot_names_are_unique at h
  by_cases h1 : (nonUniqueKeys grouped).length = 1
  · rw [if_pos h1] at h
    cases h
    rfl
  · rw [if_neg h1] at h
    by_cases h2 : 1 < (nonUniqueKeys grouped).length
    · rw [if_pos h2] at h
      cases h
      rfl
    · rw [if_neg h2] at h
      cases h

theorem allAxNames_count_eq_numGroups (grouped : List (String × List (String × α)))
    (hgrp : ∀ g ∈ grouped, (dictKeys g.2).Nodup) (k : String) :
    (allAxNames grouped).count k = numGroupsUsing grouped k := by
  induction grouped with
  | nil => rfl
  | cons g gs ih =>
    have hg : (dictKeys g.2).Nodup := hgrp g (List.mem_cons_self _ _)
    have ih' := ih (fun g' hg' => hgrp g' (List.mem_cons_of_mem _ hg'))
    rw [allAxNames, List.flatMap_cons, List.count_append, ← allAxNames]
    simp only [numGroupsUsing, List.filter_cons] at ih' ⊢
    by_cases hk : k ∈ dictKeys g.2
    · rw [List.count_eq_one_of_mem hg hk, ih']
      simp [hk]
      omega
    · rw [List.count_eq_zero.mpr hk, ih']
      simp [hk]

theorem dictKeys_flatten_map_snd (grouped : List (String × List (String × α))) :
    dictKeys ((grouped.map Prod.snd).flatten) = allAxNames grouped := by
  induction grouped with
  | nil => rfl
  | cons g gs ih =>
    rw [List.map_cons, List.flatten_cons, dictKeys_append, ih]
    rfl

/-- C1: for a layout accepted by the constructor (the post-construction
uniqueness check passes), the flattened registry `ax_dict` has pairwise
distinct keys, its entries are exactly the union of the per-group axis
dictionaries of `grouped_ax_dict`, and every leaf axis name of every group
occurs exactly once among its keys. -/
theorem flattened_registry_is_exact_union
    (grouped : List (String × List (String × α)))
    (hok : check_if_subplot_names_are_unique grouped = Except.ok ()) :
    (dictKeys (ax_dict grouped)).Nodup ∧
    (∀ k v, (k, v) ∈ ax_dict grouped ↔ ∃ g ∈ grouped, (k, v) ∈ g.2) ∧
    (∀ k, (∃ g ∈ grouped, k ∈ dictKeys g.2) →
      (dictKeys (ax_dict grouped)).count k = 1) := by
  have hnil : nonUniqueKeys grouped = [] := by
    by_contra hne
    obtain ⟨l, hl⟩ := (check_error_iff grouped).mpr hne
    rw [hl] at hok
    cases hok
  have hnd : (allAxNames grouped).Nodup := (nonUniqueKeys_eq_nil_iff grouped).mp hnil
  have hkeys : (dictKeys ((grouped.map Prod.snd).flatten)).Nodup := by
    rw [dictKeys_flatten_map_snd]
    exact hnd
  have hax : ax_dict grouped = (grouped.map Prod.snd).flatten :=
    mergeDicts_eq_flatten _ hkeys
  refine ⟨?_, ?_, ?_⟩
  · rw [hax]
    exact hkeys
  · intro k v
    rw [hax, List.mem_flatten]
    constructor
    · rintro ⟨l, hl, hkv⟩
      obtain ⟨g, hg, rfl⟩ := List.mem_map.mp hl
      exact ⟨g, hg, hkv⟩
    · rintro ⟨g, hg, hkv⟩
      exact ⟨g.2, List.mem_map.mpr ⟨g, hg, rfl⟩, hkv⟩
  · rintro k ⟨g, hg, hk⟩
    rw [hax]
    refine List.count_eq_one_of_mem hkeys ?_
    rw [dictKeys_flatten_map_snd]
    rw [allAxNames, List.mem_flatMap]
    exact ⟨g, hg, hk⟩

/-- C1 witness: the default single-axis layout `[["ax1-1"]]` built by the
constructor when no builder is given. -/
theorem flattened_registry_is_exact_union_witness :
    (dictKeys (ax_dict [("fig", [("ax1-1", (0 : Nat))])])).Nodup :=
  (flattened_registry_is_exact_union [("fig", [("ax1-1", (0 : Nat))])] rfl).1

/-- C2: the uniqueness check raises exactly when an axis name is used in two
or more different subfigure groups, the raised exception carries exactly the
duplicated names, and a layout with no shared name passes the check. -/
theorem duplicate_names_raise_naming_all
    (grouped : List (String × List (String × α)))
    (hgrp : ∀ g ∈ grouped, (dictKeys g.2).Nodup) :
    ((∃ l, check_if_subplot_names_are_unique grouped = Except.error l) ↔
      ∃ k, 2 ≤ numGroupsUsing grouped k) ∧
    (∀ l, check_if_subplot_names_are_unique grouped = Except.error l →
      ∀ k, (k ∈ l ↔ 2 ≤ numGroupsUsing grouped k)) ∧
    ((¬ ∃ k, 2 ≤ numGroupsUsing grouped k) →
      check_if_subplot_names_are_unique grouped = Except.ok ()) := by
  have hdup : (¬ (allAxNames grouped).Nodup) ↔ ∃ k, 2 ≤ numGroupsUsing grouped k := by
    rw [List.nodup_iff_count_le_one]
    push_neg
    constructor
    · rintro ⟨a, ha⟩
      refine ⟨a, ?_⟩
      rw [← allAxNames_count_eq_numGroups grouped hgrp]
      omega
    · rintro ⟨a, ha⟩
      refine ⟨a, ?_⟩
      rw [allAxNames_count_eq_numGroups grouped hgrp]
      omega
  refine ⟨?_, ?_, ?_⟩
  · rw [check_error_iff, Ne, nonUniqueKeys_eq_nil_iff]
    exact hdup
  · intro l hl k
    rw [check_error_val grouped l hl, mem_nonUniqueKeys,
      allAxNames_count_eq_numGroups grouped hgrp]
  · intro hno
    have hnd : (allAxNames grouped).Nodup := by
      by_contra hc
      exact hno (hdup.mp hc)
    have hnil : nonUniqueKeys grouped = [] := (nonUniqueKeys_eq_nil_iff grouped).mpr hnd
    unfold check_if_subplot_names_are_unique
    rw [hnil]
    rfl

/-- C2 witness: the name "a" used in the two groups "g1" and "g2". -/
theorem duplicate_names_raise_naming_all_witness :
    ∃ k, 2 ≤ numGroupsUsing [("g1", [("a", (0 : Nat))]), ("g2", [("a", 1)])] k :=
  (duplicate_names_raise_naming_all [("g1", [("a", (0 : Nat))]), ("g2", [("a", 1)])]
    (by decide)).1.mp ⟨["a"], rfl⟩

/-- C3: `get_axis` raises a `ValueError` whose message contains the name
exactly when the name is not a key of `ax_dict`, and returns the registered
axis otherwise; `get_subfigure` behaves the same over `sf_dict`. -/
theorem unknown_name_lookup_raises
    (grouped grouped_sf : List (String × List (String × α))) (name : String) :
    ((∃ msg, get_axis grouped name = Except.error (PyError.valueError msg) ∧
        ∃ pre suf, msg = pre ++ name ++ suf) ↔
      name ∉ dictKeys (ax_dict grouped)) ∧
    (∀ v, pyGet? (ax_dict grouped) name = some v →
      get_axis grouped name = Except.ok v) ∧
    ((∃ msg, get_subfigure grouped_sf name = Except.error (PyError.valueError msg) ∧
        ∃ pre suf, msg = pre ++ name ++ suf) ↔
      name ∉ dictKeys (sf_dict grouped_sf)) ∧
    (∀ v, pyGet? (sf_dict grouped_sf) name = some v →
      get_subfigure grouped_sf name = Except.ok v) := by
  refine ⟨?_, ?_, ?_, ?_⟩
  · rw [← pyGet?_eq_none]
    constructor
    · rintro ⟨msg, hmsg, _⟩
      unfold get_axis at hmsg
      cases h : pyGet? (ax_dict grouped) name with
      | none => rfl
      | some v =>
        rw [h] at hmsg
        cases hmsg
    · intro h
      unfold get_axis
      rw [h]
      exact ⟨_, rfl, "The axis \"", "\" does not exists!", rfl⟩
  · intro v hv
    unfold get_axis
    rw [hv]
  · rw [← pyGet?_eq_none]
    constructor
    · rintro ⟨msg, hmsg, _⟩
      unfold get_subfigure at hmsg
      cases h : pyGet? (sf_dict grouped_sf) name with
      | none => rfl
      | some v =>
        rw [h] at hmsg
        cases hmsg
    · intro h
      unfold get_subfigure
      rw [h]
      exact ⟨_, rfl, "The subfigure \"", "\" does not exists!", rfl⟩
  · intro v hv
    unfold get_subfigure
    rw [hv]

/-!
## Legend de-duplication (`base_plotter.py`, `_remove_dulicated_legend_items`)
-/

/-- `NestedGridPlotter._remove_dulicated_legend_items` (source spelling kept):
`by_label = dict(zip(labels, handles))`, returning
`list(by_label.values()), list(by_label.keys())`. -/
def remove_dulicated_legend_items (handles : List α) (labels : List String) :
    List α × List String :=
  let by_label := dictOfPairs (labels.zip handles)
  (by_label.map Prod.snd, by_label.map Prod.fst)

theorem dictOfPairs_concat (ps : List (κ × α)) (p : κ × α) :
    dictOfPairs (ps ++ [p]) = pyInsert (dictOfPairs ps) p.1 p.2 := by
  rw [dictOfPairs, List.foldl_append]
  rfl

theorem pyGet?_dictOfPairs (ps : List (κ × α)) (k : κ) :
    pyGet? (dictOfPairs ps) k =
      ((ps.filter (fun q => q.1 = k)).getLast?).map Prod.snd := by
  induction ps using List.reverseRecOn with
  | nil => rfl
  | append_singleton ps p ih =>
    rw [dictOfPairs_concat, pyGet?_pyInsert, List.filter_append]
    by_cases hp : p.1 = k
    · rw [if_pos hp]
      have hone : List.filter (fun q => decide (q.1 = k)) [p] = [p] := by
        simp [hp]
      rw [hone, List.getLast?_concat]
      rfl
    · rw [if_neg hp, ih]
      have hnone : List.filter (fun q => decide (q.1 = k)) [p] = [] := by
        simp [hp]
      rw [hnone, List.append_nil]

theorem dictKeys_dictOfPairs_nodup (ps : List (κ × α)) :
    (dictKeys (dictOfPairs ps)).Nodup := by
  induction ps using List.reverseRecOn with
  | nil => exact List.nodup_nil
  | append_singleton ps p ih =>
    rw [dictOfPairs_concat]
    exact dictKeys_nodup_pyInsert _ _ _ ih

theorem pyDedupEx_cons (seen : List κ) (x : κ) (xs : List κ) :
    pyDedupEx seen (x :: xs) =
      if x ∈ seen then pyDedupEx seen xs else x :: pyDedupEx (x :: seen) xs := rfl

theorem dictKeys_foldl_insert (ps : List (κ × α)) (d : List (κ × α)) :
    dictKeys (ps.foldl (fun acc kv => pyInsert acc kv.1 kv.2) d) =
      dictKeys d ++ pyDedupEx (dictKeys d) (ps.map Prod.fst) := by
  induction ps generalizing d with
  | nil => simp [pyDedupEx]
  | cons p ps ih =>
    rw [List.foldl_cons, ih, List.map_cons, pyDedupEx_cons]
    by_cases hp : p.1 ∈ dictKeys d
    · rw [if_pos hp, dictKeys_pyInsert, if_pos hp]
    · rw [if_neg hp, dictKeys_pyInsert, if_neg hp,
        pyDedupEx_congr (dictKeys d ++ [p.1]) (p.1 :: dictKeys d) _
          (by intro x; simp [List.mem_append, List.mem_cons, or_comm]),
        List.append_assoc]
      rfl

theorem dictKeys_dictOfPairs (ps : List (κ × α)) :
    dictKeys (dictOfPairs ps) = pyDedup (ps.map Prod.fst) := by
  rw [dictOfPairs, dictKeys_foldl_insert]
  rfl

theorem mem_dictOfPairs_sub {ps : List (κ × α)} {q : κ × α}
    (h : q ∈ dictOfPairs ps) : q ∈ ps := by
  induction ps using List.reverseRecOn with
  | nil => cases h
  | append_singleton ps p ih =>
    rw [dictOfPairs_concat] at h
    rcases mem_of_mem_pyInsert h with h' | h'
    · exact List.mem_append.mpr (Or.inr (by simpa using h'))
    · exact List.mem_append.mpr (Or.inl (ih h'))

theorem getLast?_filter_map_snd (ps : List (κ × α)) (k : κ) (v : α) :
    ((ps.filter (fun q => q.1 = k)).getLast?).map Prod.snd = some v ↔
      (ps.filter (fun q => q.1 = k)).getLast? = some (k, v) := by
  constructor
  · intro h
    cases e : (ps.filter (fun q => q.1 = k)).getLast? with
    | none =>
      rw [e] at h
      cases h
    | some q =>
      rw [e] at h
      obtain ⟨ys, hys⟩ := List.getLast?_eq_some_iff.mp e
      have hq : q ∈ ps.filter (fun r => r.1 = k) := by
        rw [hys]
        exact List.mem_append.mpr (Or.inr (List.mem_singleton.mpr rfl))
      have hq1 : q.1 = k := by
        have := (List.mem_filter.mp hq).2
        simpa using this
      obtain ⟨q1, q2⟩ := q
      simp only [Option.map_some'] at h
      injection h with h2
      have hq1' : q1 = k := hq1
      rw [hq1', h2]
  · intro h
    rw [h]
    rfl

theorem zip_values_keys (d : List (κ × α)) :
    (d.map Prod.snd).zip (d.map Prod.fst) = d.map (fun q => (q.2, q.1)) :=
  List.zip_map' Prod.snd Prod.fst d

theorem zip_keys_values (d : List (κ × α)) :
    (d.map Prod.fst).zip (d.map Prod.snd) = d := by
  rw [List.zip_map' Prod.fst Prod.snd d]
  have : (fun (q : κ × α) => (q.1, q.2)) = id := funext fun q => rfl
  rw [this, List.map_id]

/-- C6: the de-duplication is last-write-wins over `(label, handle)` pairs:
output labels are pairwise distinct and listed in order of first occurrence,
and a `(label, handle)` pair is returned exactly when it is the last
occurrence of that label in the input pair sequence. -/
theorem legend_dedup_last_write_wins (handles : List α) (labels : List String) :
    ((remove_dulicated_legend_items handles labels).2.Nodup) ∧
    ((remove_dulicated_legend_items handles labels).2 =
      pyDedup ((labels.zip handles).map Prod.fst)) ∧
    (∀ l h, ((l, h) ∈ ((remove_dulicated_legend_items handles labels).2.zip
        (remove_dulicated_legend_items handles labels).1)) ↔
      ((labels.zip handles).filter (fun q => q.1 = l)).getLast? = some (l, h)) := by
  refine ⟨?_, ?_, ?_⟩
  · exact dictKeys_dictOfPairs_nodup (labels.zip handles)
  · exact dictKeys_dictOfPairs (labels.zip handles)
  · intro l h
    unfold remove_dulicated_legend_items
    rw [zip_keys_values,
      mem_iff_pyGet? (dictKeys_dictOfPairs_nodup (labels.zip handles)) l h,
      pyGet?_dictOfPairs, getLast?_filter_map_snd]

/-- C6 witness at a concrete input. -/
theorem legend_dedup_last_write_wins_witness :
    (remove_dulicated_legend_items ([1, 2] : List Nat) ["a", "a"]).2.Nodup :=
  (legend_dedup_last_write_wins ([1, 2] : List Nat) ["a", "a"]).1

/-- C5 counterexample: with handles `[1, 1, 2]` and labels `["a", "a", "a"]`
the input holds the exact duplicate pair `(1, "a")` at two positions, yet the
returned lists do not contain that pair at all: the label's last occurrence
carries handle `2`, which wins. -/
theorem duplicate_pair_kept_once_counterexample :
    2 ≤ (([1, 1, 2] : List Nat).zip ["a", "a", "a"]).count (1, "a") ∧
    ¬ (((remove_dulicated_legend_items ([1, 1, 2] : List Nat)
          ["a", "a", "a"]).1.zip
        (remove_dulicated_legend_items ([1, 1, 2] : List Nat)
          ["a", "a", "a"]).2).count (1, "a") = 1) := by
  decide

theorem countP_eq_le_one_of_nodup {β : Type} [DecidableEq β] {l : List β}
    (hl : l.Nodup) (a : β) : l.countP (fun q => q = a) ≤ 1 := by
  induction l with
  | nil => simp
  | cons x xs ih =>
    rw [List.countP_cons]
    rcases List.nodup_cons.mp hl with ⟨hx, hxs⟩
    by_cases hxa : x = a
    · subst hxa
      have hz : xs.countP (fun q => q = x) = 0 := by
        rw [List.countP_eq_zero]
        intro b hb
        simp only [decide_eq_true_eq]
        intro hba
        exact hx (hba ▸ hb)
      simp [hz]
    · simp [hxa, ih hxs]

theorem countP_eq_pos_of_mem {β : Type} [DecidableEq β] {l : List β} {a : β}
    (ha : a ∈ l) : 1 ≤ l.countP (fun q => q = a) := by
  induction l with
  | nil => cases ha
  | cons x xs ih =>
    rw [List.countP_cons]
    rcases List.mem_cons.mp ha with h | h
    · simp [h.symm]
    · have := ih h
      omega

/-- C5 (amended): the returned lists hold a duplicated input pair at most
once — exactly once when the pair's handle is the one at the label's last
occurrence in the input — and every returned pair occurred in the input. -/
theorem duplicate_pair_kept_once_amended [DecidableEq α]
    (handles : List α) (labels : List String) (h : α) (l : String)
    (hdup : 2 ≤ (handles.zip labels).countP (fun q => q = (h, l))) :
    (((remove_dulicated_legend_items handles labels).1.zip
        (remove_dulicated_legend_items handles labels).2).countP
        (fun q => q = (h, l)) ≤ 1) ∧
    (∀ p ∈ (remove_dulicated_legend_items handles labels).1.zip
        (remove_dulicated_legend_items handles labels).2, p ∈ handles.zip labels) ∧
    (((labels.zip handles).filter (fun q => q.1 = l)).getLast? = some (l, h) →
      ((remove_dulicated_legend_items handles labels).1.zip
        (remove_dulicated_legend_items handles labels).2).countP
        (fun q => q = (h, l)) = 1) := by
  have hswap : (fun (q : String × α) => (q.2, q.1)) = Prod.swap :=
    funext fun q => rfl
  have hz : (remove_dulicated_legend_items handles labels).1.zip
      (remove_dulicated_legend_items handles labels).2 =
      (dictOfPairs (labels.zip handles)).map Prod.swap := by
    unfold remove_dulicated_legend_items
    rw [zip_values_keys, hswap]
  have hnodup : ((dictOfPairs (labels.zip handles)).map Prod.swap).Nodup := by
    refine List.Nodup.map Prod.swap_injective ?_
    exact List.Nodup.of_map Prod.fst (dictKeys_dictOfPairs_nodup (labels.zip handles))
  refine ⟨?_, ?_, ?_⟩
  · rw [hz]
    exact countP_eq_le_one_of_nodup hnodup (h, l)
  · intro p hp
    rw [hz] at hp
    obtain ⟨q, hq, rfl⟩ := List.mem_map.mp hp
    have hqin : q ∈ labels.zip handles := mem_dictOfPairs_sub hq
    have hsw : q.swap ∈ (labels.zip handles).map Prod.swap :=
      List.mem_map.mpr ⟨q, hqin, rfl⟩
    rwa [List.zip_swap] at hsw
  · intro hlast
    have hmem : (l, h) ∈ dictOfPairs (labels.zip handles) := by
      rw [mem_iff_pyGet? (dictKeys_dictOfPairs_nodup (labels.zip handles)) l h,
        pyGet?_dictOfPairs, getLast?_filter_map_snd]
      exact hlast
    have hmem' : (h, l) ∈ (dictOfPairs (labels.zip handles)).map Prod.swap :=
      List.mem_map.mpr ⟨(l, h), hmem, rfl⟩
    have hpos := countP_eq_pos_of_mem hmem'
    have hle := countP_eq_le_one_of_nodup hnodup (h, l)
    rw [hz]
    omega

/-- C5 witness at a concrete input with a duplicated pair. -/
theorem duplicate_pair_kept_once_amended_witness :
    ((remove_dulicated_legend_items ([1, 1] : List Nat) ["a", "a"]).1.zip
      (remove_dulicated_legend_items ([1, 1] : List Nat) ["a", "a"]).2).countP
      (fun q => q = (1, "a")) ≤ 1 :=
  (duplicate_pair_kept_once_amended [1, 1] ["a", "a"] 1 "a" (by decide)).1

/-!
## Colorbar scaling (`imshow.py`, `_scale_cbar`)

Data arrays are lists of entries, an entry being `none` for NaN and
`some q` for the (exactly represented) float value `q`.
-/

def minOptQ (x : ℚ) : Option ℚ → Option ℚ
  | none => some x
  | some y => some (min x y)

def maxOptQ (x : ℚ) : Option ℚ → Option ℚ
  | none => some x
  | some y => some (max x y)

/-- Minimum of a list of values, `none` for an empty list. -/
def listMinQ (l : List ℚ) : Option ℚ := l.foldr minOptQ none

/-- Maximum of a list of values, `none` for an empty list. -/
def listMaxQ (l : List ℚ) : Option ℚ := l.foldr maxOptQ none

/-- The value `np.nanmin` computes on a non-empty array: minimum over the
non-NaN entries, NaN (`none`) when every entry is NaN. -/
def nanminVal (data : List (Option ℚ)) : Option ℚ := listMinQ (data.filterMap id)

/-- The value `np.nanmax` computes on a non-empty array. -/
def nanmaxVal (data : List (Option ℚ)) : Option ℚ := listMaxQ (data.filterMap id)

/-- `np.nanmin(data)`: a `ValueError` on a zero-size array (a reduction with
no identity); otherwise the minimum over the non-NaN entries, NaN (`none`)
when every entry is NaN. -/
def nanmin (data : List (Option ℚ)) : Except PyError (Option ℚ) :=
  match data with
  | [] => Except.error (PyError.valueError
      "zero-size array to reduction operation fmin which has no identity")
  | _ => Except.ok (nanminVal data)

/-- `np.nanmax(data)`: `ValueError` on a zero-size array, as `nanmin`. -/
def nanmax (data : List (Option ℚ)) : Except PyError (Option ℚ) :=
  match data with
  | [] => Except.error (PyError.valueError
      "zero-size array to reduction operation fmax which has no identity")
  | _ => Except.ok (nanmaxVal data)

/-- The comprehension `[np.nanmin(data) for data in data_list]`: the first
`ValueError` aborts it. -/
def nanminEach : List (List (Option ℚ)) → Except PyError (List (Option ℚ))
  | [] => Except.ok []
  | d :: ds =>
    match nanmin d with
    | Except.error e => Except.error e
    | Except.ok m =>
      match nanminEach ds with
      | Except.error e => Except.error e
      | Except.ok ms => Except.ok (m :: ms)

/-- The comprehension `[np.nanmax(data) for data in data_list]`. -/
def nanmaxEach : List (List (Option ℚ)) → Except PyError (List (Option ℚ))
  | [] => Except.ok []
  | d :: ds =>
    match nanmax d with
    | Except.error e => Except.error e
    | Except.ok m =>
      match nanmaxEach ds with
      | Except.error e => Except.error e
      | Except.ok ms => Except.ok (m :: ms)

/-- `np.nanmin([np.nanmin(data) for data in data_list])`: an inner
`ValueError` propagates, an empty `data_list` is itself a zero-size
reduction. -/
def nanminAll (data_list : List (List (Option ℚ))) : Except PyError (Option ℚ) :=
  match nanminEach data_list with
  | Except.error e => Except.error e
  | Except.ok [] => Except.error (PyError.valueError
      "zero-size array to reduction operation fmin which has no identity")
  | Except.ok inner => Except.ok (listMinQ (inner.filterMap id))

/-- `np.nanmax([np.nanmax(data) for data in data_list])`. -/
def nanmaxAll (data_list : List (List (Option ℚ))) : Except PyError (Option ℚ) :=
  match nanmaxEach data_list with
  | Except.error e => Except.error e
  | Except.ok [] => Except.error (PyError.valueError
      "zero-size array to reduction operation fmax which has no identity")
  | Except.ok inner => Except.ok (listMaxQ (inner.filterMap id))

/-- The successful value of the nested minimum: `nanminAll` restricted to its
domain. -/
def nanminAllVal (data_list : List (List (Option ℚ))) : Option ℚ :=
  listMinQ ((data_list.map nanminVal).filterMap id)

/-- The successful value of the nested maximum. -/
def nanmaxAllVal (data_list : List (List (Option ℚ))) : Option ℚ :=
  listMaxQ ((data_list.map nanmaxVal).filterMap id)

/-- The value range carried by a `matplotlib.colors` normalisation. -/
inductive Norm where
  | normalize (vmin vmax : Option ℚ)
  | logNorm (vmin vmax : Option ℚ)
  deriving DecidableEq

/-- `imshow.py::_scale_cbar`: fill a missing bound from the data (propagating
the `ValueError` a zero-size NaN-reduction raises, in which case no norm is
set), make the bounds symmetric around zero when requested, then set the same
resulting normalisation on every image (returned as image/norm pairs).  NaN
propagation through `max`/`abs`/negation is the `(none, none)` branch. -/
def scale_cbar (images : List Nat) (data_list : List (List (Option ℚ)))
    (is_symetric_cbar : Bool) (is_log : Bool) (vmin0 vmax0 : Option ℚ) :
    Except PyError (List (Nat × Norm)) :=
  match (match vmin0 with
         | none => nanminAll data_list
         | some v => Except.ok (some v)) with
  | Except.error e => Except.error e
  | Except.ok vmin =>
    match (match vmax0 with
           | none => nanmaxAll data_list
           | some v => Except.ok (some v)) with
    | Except.error e => Except.error e
    | Except.ok vmax =>
      let vv : Option ℚ × Option ℚ :=
        if is_symetric_cbar then
          match vmin, vmax with
          | some a, some b =>
            let abs_norm := max |a| |b|
            (some (-abs_norm), some abs_norm)
          | _, _ => (none, none)
        else (vmin, vmax)
      let norm :=
        if is_log then Norm.logNorm vv.1 vv.2 else Norm.normalize vv.1 vv.2
      Except.ok (images.map (fun im => (im, norm)))

def mergeMinQ : Option ℚ → Option ℚ → Option ℚ
  | none, b => b
  | some a, none => some a
  | some a, some b => some (min a b)

def mergeMaxQ : Option ℚ → Option ℚ → Option ℚ
  | none, b => b
  | some a, none => some a
  | some a, some b => some (max a b)

theorem listMinQ_cons (x : ℚ) (l : List ℚ) :
    listMinQ (x :: l) = minOptQ x (listMinQ l) := rfl

theorem listMaxQ_cons (x : ℚ) (l : List ℚ) :
    listMaxQ (x :: l) = maxOptQ x (listMaxQ l) := rfl

theorem listMinQ_ne_none (x : ℚ) (l : List ℚ) : listMinQ (x :: l) ≠ none := by
  rw [listMinQ_cons]
  cases h : listMinQ l <;> simp [minOptQ]

theorem listMaxQ_ne_none (x : ℚ) (l : List ℚ) : listMaxQ (x :: l) ≠ none := by
  rw [listMaxQ_cons]
  cases h : listMaxQ l <;> simp [maxOptQ]

theorem minOptQ_merge (x : ℚ) (b : Option ℚ) :
    minOptQ x b = mergeMinQ (some x) b := by
  cases b <;> rfl

theorem maxOptQ_merge (x : ℚ) (b : Option ℚ) :
    maxOptQ x b = mergeMaxQ (some x) b := by
  cases b <;> rfl

theorem minOptQ_mergeMinQ (x : ℚ) (a b : Option ℚ) :
    minOptQ x (mergeMinQ a b) = mergeMinQ (minOptQ x a) b := by
  cases a <;> cases b <;> simp [minOptQ, mergeMinQ, min_assoc]

theorem maxOptQ_mergeMaxQ (x : ℚ) (a b : Option ℚ) :
    maxOptQ x (mergeMaxQ a b) = mergeMaxQ (maxOptQ x a) b := by
  cases a <;> cases b <;> simp [maxOptQ, mergeMaxQ, max_assoc]

theorem listMinQ_append (l1 l2 : List ℚ) :
    listMinQ (l1 ++ l2) = mergeMinQ (listMinQ l1) (listMinQ l2) := by
  induction l1 with
  | nil => rfl
  | cons x xs ih =>
    show minOptQ x (listMinQ (xs ++ l2)) =
      mergeMinQ (minOptQ x (listMinQ xs)) (listMinQ l2)
    rw [ih, minOptQ_mergeMinQ]

theorem listMaxQ_append (l1 l2 : List ℚ) :
    listMaxQ (l1 ++ l2) = mergeMaxQ (listMaxQ l1) (listMaxQ l2) := by
  induction l1 with
  | nil => rfl
  | cons x xs ih =>
    show maxOptQ x (listMaxQ (xs ++ l2)) =
      mergeMaxQ (maxOptQ x (listMaxQ xs)) (listMaxQ l2)
    rw [ih, maxOptQ_mergeMaxQ]

/-- The nested NaN-ignoring minimum, where defined, equals the NaN-ignoring
minimum over all entries of all arrays. -/
theorem nanminAllVal_eq_flat (data_list : List (List (Option ℚ))) :
    nanminAllVal data_list = listMinQ ((data_list.flatten).filterMap id) := by
  induction data_list with
  | nil => rfl
  | cons d ds ih =>
    rw [List.flatten_cons, List.filterMap_append, listMinQ_append]
    rw [nanminAllVal, List.map_cons]
    cases h : nanminVal d with
    | none =>
      have hnil : d.filterMap id = [] := by
        cases e : d.filterMap id with
        | nil => rfl
        | cons x xs =>
          rw [nanminVal, e] at h
          exact absurd h (listMinQ_ne_none x xs)
      rw [List.filterMap_cons_none, ← nanminAllVal, ih, hnil]
      · rfl
      · rfl
    | some v =>
      rw [List.filterMap_cons_some, listMinQ_cons, ← nanminAllVal, ih,
        minOptQ_merge]
      · rw [nanminVal] at h
        rw [h]
      · rfl

theorem nanmaxAllVal_eq_flat (data_list : List (List (Option ℚ))) :
    nanmaxAllVal data_list = listMaxQ ((data_list.flatten).filterMap id) := by
  induction data_list with
  | nil => rfl
  | cons d ds ih =>
    rw [List.flatten_cons, List.filterMap_append, listMaxQ_append]
    rw [nanmaxAllVal, List.map_cons]
    cases h : nanmaxVal d with
    | none =>
      have hnil : d.filterMap id = [] := by
        cases e : d.filterMap id with
        | nil => rfl
        | cons x xs =>
          rw [nanmaxVal, e] at h
          exact absurd h (listMaxQ_ne_none x xs)
      rw [List.filterMap_cons_none, ← nanmaxAllVal, ih, hnil]
      · rfl
      · rfl
    | some v =>
      rw [List.filterMap_cons_some, listMaxQ_cons, ← nanmaxAllVal, ih,
        maxOptQ_merge]
      · rw [nanmaxVal] at h
        rw [h]
      · rfl

/-- On arrays that are all non-empty the comprehension of inner `nanmin`s
succeeds with their values. -/
theorem nanminEach_of_nonempty (data_list : List (List (Option ℚ)))
    (hne : ∀ d ∈ data_list, d ≠ []) :
    nanminEach data_list = Except.ok (data_list.map nanminVal) := by
  induction data_list with
  | nil => rfl
  | cons d ds ih =>
    have hd : d ≠ [] := hne d (List.mem_cons_self _ _)
    have hnd : nanmin d = Except.ok (nanminVal d) := by
      cases d with
      | nil => exact absurd rfl hd
      | cons x xs => rfl
    rw [nanminEach, hnd, ih (fun d' hd' => hne d' (List.mem_cons_of_mem _ hd'))]
    rfl

theorem nanmaxEach_of_nonempty (data_list : List (List (Option ℚ)))
    (hne : ∀ d ∈ data_list, d ≠ []) :
    nanmaxEach data_list = Except.ok (data_list.map nanmaxVal) := by
  induction data_list with
  | nil => rfl
  | cons d ds ih =>
    have hd : d ≠ [] := hne d (List.mem_cons_self _ _)
    have hnd : nanmax d = Except.ok (nanmaxVal d) := by
      cases d with
      | nil => exact absurd rfl hd
      | cons x xs => rfl
    rw [nanmaxEach, hnd, ih (fun d' hd' => hne d' (List.mem_cons_of_mem _ hd'))]
    rfl

/-- On a non-empty `data_list` of non-empty arrays the nested minimum
succeeds and equals the flat NaN-ignoring minimum. -/
theorem nanminAll_of_nonempty (data_list : List (List (Option ℚ)))
    (h0 : data_list ≠ []) (hne : ∀ d ∈ data_list, d ≠ []) :
    nanminAll data_list =
      Except.ok (listMinQ ((data_list.flatten).filterMap id)) := by
  rw [nanminAll, nanminEach_of_nonempty data_list hne]
  cases data_list with
  | nil => exact absurd rfl h0
  | cons d ds =>
    show Except.ok (nanminAllVal (d :: ds)) =
      Except.ok (listMinQ ((((d :: ds)).flatten).filterMap id))
    rw [nanminAllVal_eq_flat]

theorem nanmaxAll_of_nonempty (data_list : List (List (Option ℚ)))
    (h0 : data_list ≠ []) (hne : ∀ d ∈ data_list, d ≠ []) :
    nanmaxAll data_list =
      Except.ok (listMaxQ ((data_list.flatten).filterMap id)) := by
  rw [nanmaxAll, nanmaxEach_of_nonempty data_list hne]
  cases data_list with
  | nil => exact absurd rfl h0
  | cons d ds =>
    show Except.ok (nanmaxAllVal (d :: ds)) =
      Except.ok (listMaxQ ((((d :: ds)).flatten).filterMap id))
    rw [nanmaxAllVal_eq_flat]

/-- C4: with `is_symetric_cbar` set and no explicit `vmin`/`vmax`, on data
whose NaN-ignoring reductions are defined (a non-empty `data_list` of
non-empty arrays — on a zero-size array the reduction raises `ValueError`
and no norm is set), every image receives a `Normalize` with
`vmin = -max(|m|, |M|)` and `vmax = max(|m|, |M|)`, where `m` and `M` are the
NaN-ignoring minimum and maximum over all entries of all arrays in
`data_list`; in particular `vmin = -vmax`. -/
theorem symmetric_cbar_bounds (images : List Nat)
    (data_list : List (List (Option ℚ))) (m M : ℚ)
    (h0 : data_list ≠ []) (hne : ∀ d ∈ data_list, d ≠ [])
    (hm : listMinQ ((data_list.flatten).filterMap id) = some m)
    (hM : listMaxQ ((data_list.flatten).filterMap id) = some M) :
    scale_cbar images data_list true false none none =
      Except.ok (images.map (fun im => (im, Norm.normalize
        (some (-(max |m| |M|))) (some (max |m| |M|))))) := by
  have h1 : nanminAll data_list = Except.ok (some m) := by
    rw [nanminAll_of_nonempty data_list h0 hne, hm]
  have h2 : nanmaxAll data_list = Except.ok (some M) := by
    rw [nanmaxAll_of_nonempty data_list h0 hne, hM]
  unfold scale_cbar
  rw [h1, h2]
  rfl

/-- C4 witness: arrays `[1, NaN]` and `[-3]` give `vmin = -3`, `vmax = 3`. -/
theorem symmetric_cbar_bounds_witness :
    scale_cbar [7] [[some 1, none], [some (-3)]] true false none none =
      Except.ok ([7].map (fun im => (im, Norm.normalize
        (some (-(max |(-3 : ℚ)| |(1 : ℚ)|))) (some (max |(-3 : ℚ)| |(1 : ℚ)|))))) :=
  symmetric_cbar_bounds [7] [[some 1, none], [some (-3)]] (-3) 1
    (by decide) (by decide) (by decide) (by decide)

/-!
## Nested builders (`base_plotter.py`, `SubplotMosaicBuilder` / `SubfigsBuilder`)
-/

/-- A nested builder: a mosaic of named axes (`SubplotMosaicBuilder`, the
mosaic reduced to its axis labels) or a grid of subfigures (`SubfigsBuilder`)
with an optional mapping of named sub-builders. -/
inductive NBuilder where
  | mosaic (axNames : List String)
  | subfigs (nrows ncols : Nat) (sub_builders : Option (List (String × NBuilder)))

/-- The exception of `SubfigsBuilder.__call__`, whose message carries the
figure name being built, the number of builders provided and the number
expected (`nrows * ncols`). -/
inductive BuildErr where
  | countMismatch (figname : String) (provided expected : Nat)
  deriving DecidableEq

/-- Build state: a fresh-id counter for newly created matplotlib objects and
the two grouped registries being populated. -/
structure BuildState where
  nextId : Nat
  groupedSf : List (String × List (String × Nat))
  groupedAx : List (String × List (String × Nat))
  deriving DecidableEq

/-- `fig.subplot_mosaic(...)`: one fresh axes object per mosaic label, the
resulting dictionary obeying Python dict semantics. -/
def mosaicAxes (names : List String) (next : Nat) : List (String × Nat) × Nat :=
  names.foldl (fun acc nm => (pyInsert acc.1 nm acc.2, acc.2 + 1)) ([], next)

/-- The `sub_builders is None` branch of `SubfigsBuilder.__call__`: for each
grid cell `n`, the default subfigure name `<figname>_<n+1>` (`subfig_<n+1>` at
the top level) with a single default axis `<sf_name>_ax1-1` in its own group. -/
def buildDefaultSubfigs (nrows ncols : Nat) (figname : String) (st : BuildState) :
    BuildState :=
  (List.range (nrows * ncols)).foldl
    (fun st n =>
      let sf_name := (if figname = "fig" then "subfig" else figname) ++ "_" ++
        toString (n + 1)
      let sfid := st.nextId
      let axid := st.nextId + 1
      { nextId := st.nextId + 2
        groupedSf := pyInsert st.groupedSf figname
          (pyInsert ((pyGet? st.groupedSf figname).getD []) sf_name sfid)
        groupedAx := pyInsert st.groupedAx sf_name [(sf_name ++ "_ax1-1", axid)] })
    st

mutual

/-- `NestedBuilder.__call__`: run a builder against the (sub)figure named
`figname`, populating the grouped registries.  `SubfigsBuilder.__call__`
first checks `len(self.sub_builders) != self.nrows * self.ncols` and raises,
then registers `grouped_sf_dict[figname] = {}` and recurses. -/
def runBuilder : NBuilder → String → BuildState → Except BuildErr BuildState
  | NBuilder.mosaic names, figname, st =>
    Except.ok { st with
      nextId := (mosaicAxes names st.nextId).2
      groupedAx := pyInsert st.groupedAx figname (mosaicAxes names st.nextId).1 }
  | NBuilder.subfigs nrows ncols none, figname, st =>
    Except.ok (buildDefaultSubfigs nrows ncols figname
      { st with groupedSf := pyInsert st.groupedSf figname [] })
  | NBuilder.subfigs nrows ncols (some l), figname, st =>
    if l.length ≠ nrows * ncols then
      Except.error (BuildErr.countMismatch figname l.length (nrows * ncols))
    else
      runSubs l figname { st with groupedSf := pyInsert st.groupedSf figname [] }

/-- The `zip(new_subfigs, self.sub_builders.items())` loop of
`SubfigsBuilder.__call__`: register each named subfigure under `figname` and
run its builder on it recursively. -/
def runSubs : List (String × NBuilder) → String → BuildState →
    Except BuildErr BuildState
  | [], _, st => Except.ok st
  | (sf_name, b) :: rest, figname, st =>
    let st1 : BuildState :=
      { nextId := st.nextId + 1
        groupedSf := pyInsert st.groupedSf figname
          (pyInsert ((pyGet? st.groupedSf figname).getD []) sf_name st.nextId)
        groupedAx := st.groupedAx }
    match runBuilder b sf_name st1 with
    | Except.error e => Except.error e
    | Except.ok st2 => runSubs rest figname st2

end

theorem NBuilder_sizeOf_pos (b : NBuilder) : 0 < sizeOf b := by
  cases b <;> simp

theorem subsList_sizeOf_pos (l : List (String × NBuilder)) : 0 < sizeOf l := by
  cases l <;> simp

/-- Any `countMismatch` exception raised while running a builder has a
provided count different from its expected count: the raise is guarded by
exactly that inequality. -/
theorem countMismatch_ne (fuel : Nat) :
    (∀ b : NBuilder, sizeOf b ≤ fuel → ∀ figname st f p e,
      runBuilder b figname st = Except.error (BuildErr.countMismatch f p e) →
        p ≠ e) ∧
    (∀ l : List (String × NBuilder), sizeOf l ≤ fuel → ∀ figname st f p e,
      runSubs l figname st = Except.error (BuildErr.countMismatch f p e) →
        p ≠ e) := by
  induction fuel with
  | zero =>
    constructor
    · intro b hb
      exact absurd hb (by have := NBuilder_sizeOf_pos b; omega)
    · intro l hl
      exact absurd hl (by have := subsList_sizeOf_pos l; omega)
  | succ fuel ih =>
    constructor
    · intro b hb figname st f p e h
      match b with
      | NBuilder.mosaic names => simp [runBuilder] at h
      | NBuilder.subfigs nrows ncols none => simp [runBuilder] at h
      | NBuilder.subfigs nrows ncols (some l) =>
        rw [runBuilder] at h
        by_cases hne : l.length ≠ nrows * ncols
        · rw [if_pos hne] at h
          injection h with h'
          injection h' with h1 h2 h3
          rw [← h2, ← h3]
          exact hne
        · rw [if_neg hne] at h
          refine ih.2 l ?_ figname _ f p e h
          have : sizeOf l + 2 ≤ sizeOf (NBuilder.subfigs nrows ncols (some l)) := by
            simp
            omega
          omega
    · intro l hl figname st f p e h
      match l with
      | [] => simp [runSubs] at h
      | (sf_name, b) :: rest =>
        rw [runSubs] at h
        cases hr : runBuilder b sf_name
            { nextId := st.nextId + 1
              groupedSf := pyInsert st.groupedSf figname
                (pyInsert ((pyGet? st.groupedSf figname).getD []) sf_name st.nextId)
              groupedAx := st.groupedAx } with
        | error e' =>
          rw [hr] at h
          simp only at h
          injection h with h'
          refine ih.1 b ?_ sf_name _ f p e (by rw [hr, h'])
          have : sizeOf b + 1 ≤ sizeOf ((sf_name, b) :: rest) := by
            simp
            omega
          omega
        | ok st2 =>
          rw [hr] at h
          simp only at h
          refine ih.2 rest ?_ figname st2 f p e h
          have : sizeOf rest + 1 ≤ sizeOf ((sf_name, b) :: rest) := by
            simp
            omega
          omega

/-- C7: invoking a `SubfigsBuilder` whose `sub_builders` mapping is non-None
raises the exception carrying the figure name being built, the provided count
and the expected count `nrows * ncols` exactly when the number of provided
sub-builders differs from `nrows * ncols`; with `sub_builders = None` no
count check is performed and the invocation succeeds. -/
theorem subfigs_builder_count_check (nrows ncols : Nat)
    (l : List (String × NBuilder)) (figname : String) (st : BuildState) :
    (runBuilder (NBuilder.subfigs nrows ncols (some l)) figname st =
        Except.error (BuildErr.countMismatch figname l.length (nrows * ncols)) ↔
      l.length ≠ nrows * ncols) ∧
    (∃ st', runBuilder (NBuilder.subfigs nrows ncols none) figname st =
      Except.ok st') := by
  constructor
  · constructor
    · intro h
      intro heq
      rw [runBuilder, if_neg (by omega)] at h
      exact (countMismatch_ne (sizeOf l)).2 l le_rfl figname _ figname l.length
        (nrows * ncols) h heq
    · intro hne
      rw [runBuilder, if_pos hne]
  · exact ⟨_, rfl⟩

/-!
## Saving (`base_plotter.py`, `NestedGridPlotter.savefig`)
-/

/-- The savefig-relevant state of a matplotlib (sub)figure: its figure-level
legends and its optional sup-labels and sup-title, all as opaque artist ids. -/
structure MplFigure where
  legends : List Nat
  supxlabel : Option Nat
  supylabel : Option Nat
  suptitle : Option Nat

/-- The keyword arguments the wrapper inspects: `bbox_inches` (popped with
default `"tight"`) and `bbox_extra_artists` (read with default `()`). -/
structure SavefigKwargs where
  bbox_inches : Option String
  bbox_extra_artists : List Nat

/-- One iteration of the `for fig in [self.fig, *self.sf_dict.values()]` loop
of `savefig`: append `_supxlabel`, `_supylabel`, `_suptitle` when present. -/
def supStep (acc : List Nat) (f : MplFigure) : List Nat :=
  let acc := match f.supxlabel with
    | some a => acc ++ [a]
    | none => acc
  let acc := match f.supylabel with
    | some a => acc ++ [a]
    | none => acc
  match f.suptitle with
  | some a => acc ++ [a]
  | none => acc

def appendSupArtists (figs : List MplFigure) (acc : List Nat) : List Nat :=
  figs.foldl supStep acc

/-- `NestedGridPlotter.savefig`: the `bbox_inches` value and the
`bbox_extra_artists` tuple it forwards to `Figure.savefig`, computed from the
caller's keyword arguments, the main figure and the registered subfigures. -/
def savefig_forwarded (fig : MplFigure)
    (grouped_sf : List (String × List (String × MplFigure)))
    (kw : SavefigKwargs) : String × List Nat :=
  let bbox_inches := kw.bbox_inches.getD "tight"
  let sfs := (sf_dict grouped_sf).map Prod.snd
  let bbox_extra_artists :=
    kw.bbox_extra_artists ++ fig.legends ++ sfs.flatMap (fun f => f.legends)
  (bbox_inches, appendSupArtists (fig :: sfs) bbox_extra_artists)

theorem appendSupArtists_cons (f : MplFigure) (fs : List MplFigure)
    (acc : List Nat) :
    appendSupArtists (f :: fs) acc = appendSupArtists fs (supStep acc f) := rfl

theorem mem_supStep (acc : List Nat) (f : MplFigure) (x : Nat) (hx : x ∈ acc) :
    x ∈ supStep acc f := by
  rcases f with ⟨lg, sx, sy, stt⟩
  cases sx <;> cases sy <;> cases stt <;> simp [supStep, hx]

theorem mem_appendSupArtists (figs : List MplFigure) (acc : List Nat) (x : Nat)
    (hx : x ∈ acc) : x ∈ appendSupArtists figs acc := by
  induction figs generalizing acc with
  | nil => exact hx
  | cons f fs ih =>
    rw [appendSupArtists_cons]
    exact ih _ (mem_supStep acc f x hx)

/-- C8: the keyword arguments `savefig` forwards hold `bbox_inches = "tight"`
unless the caller supplied a value (then that value), and a
`bbox_extra_artists` tuple containing every caller-supplied extra artist,
every figure-level legend of the main figure and every figure-level legend of
every registered subfigure, so a figure-level legend is part of the saved
extent. -/
theorem savefig_forwards_all_legends (fig : MplFigure)
    (grouped_sf : List (String × List (String × MplFigure)))
    (kw : SavefigKwargs) :
    ((kw.bbox_inches = none →
        (savefig_forwarded fig grouped_sf kw).1 = "tight") ∧
      (∀ s, kw.bbox_inches = some s →
        (savefig_forwarded fig grouped_sf kw).1 = s)) ∧
    (∀ a ∈ kw.bbox_extra_artists, a ∈ (savefig_forwarded fig grouped_sf kw).2) ∧
    (∀ a ∈ fig.legends, a ∈ (savefig_forwarded fig grouped_sf kw).2) ∧
    (∀ sf ∈ (sf_dict grouped_sf).map Prod.snd, ∀ a ∈ sf.legends,
      a ∈ (savefig_forwarded fig grouped_sf kw).2) := by
  refine ⟨⟨?_, ?_⟩, ?_, ?_, ?_⟩
  · intro h
    simp [savefig_forwarded, h]
  · intro s h
    simp [savefig_forwarded, h]
  · intro a ha
    refine mem_appendSupArtists _ _ _ ?_
    simp [List.mem_append, ha]
  · intro a ha
    refine mem_appendSupArtists _ _ _ ?_
    simp [List.mem_append, ha]
  · intro sf hsf a ha
    refine mem_appendSupArtists _ _ _ ?_
    simp only [List.mem_append, List.mem_flatMap]
    exact Or.inr ⟨sf, hsf, ha⟩

/-!
## Per-axis legend collection (`base_plotter.py`, `_get_axis_legend_items`)
-/

/-- The legend-relevant state of a matplotlib axes object: an identity (two
distinct axes objects have distinct ids, modelling `is`), the figure it
belongs to, its bounding-box bounds `ax.bbox.bounds`, and its own handles and
labels as returned by `get_legend_handles_labels`. -/
structure AxesObj where
  id : Nat
  figId : Option Nat
  bounds : ℚ × ℚ × ℚ × ℚ
  handles : List Nat
  labels : List String

/-- The plotter state read by `_get_axis_legend_items`: the flattened axis
registry, each figure's `fig.axes` list, and the registries populated by
`add_extra_legend_item`. -/
structure LegendState where
  axDict : List (String × AxesObj)
  figAxes : List (Nat × List AxesObj)
  additionalHandles : List (String × List Nat)
  additionalLabels : List (String × List String)

/-- The twin-axes loop of `_get_axis_legend_items`: `handles += ...` and
`labels += ...` for every other axis of the figure whose bounding-box bounds
equal those of `ax`. -/
def twinLoop (ax : AxesObj) (figAxes : List AxesObj)
    (acc : List Nat × List String) : List Nat × List String :=
  figAxes.foldl
    (fun acc other =>
      if other.id = ax.id then acc
      else if other.bounds = ax.bounds then
        (acc.1 ++ other.handles, acc.2 ++ other.labels)
      else acc)
    acc

/-- `NestedGridPlotter._get_axis_legend_items`; `none` models the `KeyError`
Python would raise on `self.ax_dict[ax_name]` for an unregistered name. -/
def get_axis_legend_items (st : LegendState) (ax_name : String) :
    Option (List Nat × List String) :=
  match pyGet? st.axDict ax_name with
  | none => none
  | some ax =>
    let own : List Nat × List String := (ax.handles, ax.labels)
    let withTwins :=
      match ax.figId with
      | none => own
      | some fid => twinLoop ax ((pyGet? st.figAxes fid).getD []) own
    some (withTwins.1 ++ (pyGet? st.additionalHandles ax_name).getD [],
          withTwins.2 ++ (pyGet? st.additionalLabels ax_name).getD [])

theorem twinLoop_cons (ax : AxesObj) (o : AxesObj) (os : List AxesObj)
    (acc : List Nat × List String) :
    twinLoop ax (o :: os) acc =
      twinLoop ax os (if o.id = ax.id then acc
        else if o.bounds = ax.bounds then (acc.1 ++ o.handles, acc.2 ++ o.labels)
        else acc) := rfl

theorem twinLoop_eq (ax : AxesObj) (figAxes : List AxesObj)
    (h0 : List Nat) (l0 : List String) :
    twinLoop ax figAxes (h0, l0) =
      (h0 ++ (figAxes.filter
          (fun o => o.id ≠ ax.id ∧ o.bounds = ax.bounds)).flatMap
          (fun o => o.handles),
       l0 ++ (figAxes.filter
          (fun o => o.id ≠ ax.id ∧ o.bounds = ax.bounds)).flatMap
          (fun o => o.labels)) := by
  induction figAxes generalizing h0 l0 with
  | nil => simp [twinLoop]
  | cons o os ih =>
    rw [twinLoop_cons, List.filter_cons]
    by_cases hid : o.id = ax.id
    · rw [if_pos hid]
      have hpred : ¬ (o.id ≠ ax.id ∧ o.bounds = ax.bounds) := fun hc => hc.1 hid
      simp only [hpred, decide_eq_true_eq, if_neg, decide_eq_false_iff_not]
      rw [if_neg (by simpa using hpred)]
      exact ih h0 l0
    · rw [if_neg hid]
      by_cases hb : o.bounds = ax.bounds
      · rw [if_pos hb]
        have hpred : (o.id ≠ ax.id ∧ o.bounds = ax.bounds) := ⟨hid, hb⟩
        rw [if_pos (by simpa using hpred), ih, List.flatMap_cons,
          List.flatMap_cons, ← List.append_assoc, ← List.append_assoc]
      · have hpred : ¬ (o.id ≠ ax.id ∧ o.bounds = ax.bounds) := fun hc => hb hc.2
        rw [if_neg hb, if_neg (by simpa using hpred)]
        exact ih h0 l0

/-- C9: for a registered axis name whose axes object sits on a figure, the
collected items are the axis''s own handles and labels, followed by those of
every other axis of the same figure with equal bounding-box bounds, followed
by the extra items previously registered for that name via
`add_extra_legend_item`. -/
theorem axis_legend_items_order (st : LegendState) (name : String)
    (ax : AxesObj) (fid : Nat) (figAxes : List AxesObj)
    (hax : pyGet? st.axDict name = some ax)
    (hfig : ax.figId = some fid)
    (haxes : pyGet? st.figAxes fid = some figAxes) :
    get_axis_legend_items st name = some
      ((ax.handles ++
        (figAxes.filter (fun o => o.id ≠ ax.id ∧ o.bounds = ax.bounds)).flatMap
          (fun o => o.handles)) ++
        (pyGet? st.additionalHandles name).getD [],
       (ax.labels ++
        (figAxes.filter (fun o => o.id ≠ ax.id ∧ o.bounds = ax.bounds)).flatMap
          (fun o => o.labels)) ++
        (pyGet? st.additionalLabels name).getD []) := by
  unfold get_axis_legend_items
  rw [hax]
  simp only [hfig, haxes, Option.getD_some]
  rw [twinLoop_eq ax figAxes ax.handles ax.labels]

/-- C9 witness: an axis `"A"` with one twin (equal bounds) and one registered
extra item. -/
theorem axis_legend_items_order_witness :
    get_axis_legend_items
      { axDict := [("A", ⟨1, some 0, (0, 0, 1, 1), [5], ["u"]⟩)]
        figAxes := [(0, [⟨1, some 0, (0, 0, 1, 1), [5], ["u"]⟩,
          ⟨2, some 0, (0, 0, 1, 1), [6], ["v"]⟩])]
        additionalHandles := [("A", [9])]
        additionalLabels := [("A", ["w"])] } "A" = some
      ((List.cons 5 [] ++
        (([⟨1, some 0, (0, 0, 1, 1), [5], ["u"]⟩,
            ⟨2, some 0, (0, 0, 1, 1), [6], ["v"]⟩] : List AxesObj).filter
          (fun o => o.id ≠ 1 ∧ o.bounds = (0, 0, 1, 1))).flatMap
          (fun o => o.handles)) ++ [9],
       (List.cons "u" [] ++
        (([⟨1, some 0, (0, 0, 1, 1), [5], ["u"]⟩,
            ⟨2, some 0, (0, 0, 1, 1), [6], ["v"]⟩] : List AxesObj).filter
          (fun o => o.id ≠ 1 ∧ o.bounds = (0, 0, 1, 1))).flatMap
          (fun o => o.labels)) ++ ["w"]) :=
  axis_legend_items_order _ "A" ⟨1, some 0, (0, 0, 1, 1), [5], ["u"]⟩ 0 _
    rfl rfl rfl

/-!
## Extra legend item registries (`__init__`, `add_extra_legend_item`,
`clear_all_axes`)
-/

/-- The two registries `self._additional_handles` / `self._additional_labels`.
`clear_all_axes` also clears the axes and the figure legends; those live on
matplotlib objects outside these registries and are not modelled here. -/
structure ExtraItemRegistries where
  additionalHandles : List (String × List Nat)
  additionalLabels : List (String × List String)

/-- The registry initialisation at the end of `NestedGridPlotter.__init__`:
`{ax_name: [] for ax_name in self.ax_dict.keys()}` for both registries. -/
def initRegistries (grouped : List (String × List (String × α))) :
    ExtraItemRegistries :=
  { additionalHandles := (dictKeys (ax_dict grouped)).map (fun nm => (nm, []))
    additionalLabels := (dictKeys (ax_dict grouped)).map (fun nm => (nm, [])) }

/-- `NestedGridPlotter.add_extra_legend_item`:
`self._additional_handles[ax_name].append(handle)` then
`self._additional_labels[ax_name].append(label)`; a missing key raises
`KeyError` carrying the key. -/
def add_extra_legend_item (st : ExtraItemRegistries) (ax_name : String)
    (handle : Nat) (label : String) : Except PyError ExtraItemRegistries :=
  match pyGet? st.additionalHandles ax_name with
  | none => Except.error (PyError.keyError ax_name)
  | some hs =>
    let st1 : ExtraItemRegistries :=
      { st with additionalHandles :=
          pyInsert st.additionalHandles ax_name (hs ++ [handle]) }
    match pyGet? st1.additionalLabels ax_name with
    | none => Except.error (PyError.keyError ax_name)
    | some ls =>
      Except.ok
        { st1 with additionalLabels :=
            pyInsert st1.additionalLabels ax_name (ls ++ [label]) }

/-- `NestedGridPlotter.clear_all_axes`, restricted to the registries it
touches: both are reset to empty dicts (`{}`), with no per-axis entries
re-created. -/
def clear_all_axes (st : ExtraItemRegistries) : ExtraItemRegistries :=
  { additionalHandles := [], additionalLabels := [] }

theorem pyGet?_map_nil_entry (l : List String) (k : String) (hk : k ∈ l) :
    pyGet? (l.map (fun nm => (nm, ([] : List α)))) k = some [] := by
  induction l with
  | nil => cases hk
  | cons x xs ih =>
    rw [List.map_cons, pyGet?_cons]
    by_cases hx : x = k
    · rw [if_pos hx]
    · rw [if_neg hx]
      exact ih (by rcases List.mem_cons.mp hk with h | h
                   · exact absurd h.symm hx
                   · exact h)

/-- C10: after construction both extra-item registries hold an empty entry for
every registered axis name, so `add_extra_legend_item` succeeds there; after
`clear_all_axes` both registries are empty dicts, so every call — whatever the
name — raises `KeyError` with that name, never the descriptive `ValueError` of
the lookup helpers. -/
theorem extra_item_registries_after_clear
    (grouped : List (String × List (String × α))) (name : String) (handle : Nat)
    (label : String) (st : ExtraItemRegistries) :
    (name ∈ dictKeys (ax_dict grouped) →
      pyGet? (initRegistries grouped).additionalHandles name = some [] ∧
      pyGet? (initRegistries grouped).additionalLabels name = some [] ∧
      ∃ st', add_extra_legend_item (initRegistries grouped) name handle label =
        Except.ok st') ∧
    (add_extra_legend_item (clear_all_axes st) name handle label =
      Except.error (PyError.keyError name)) ∧
    (∀ msg, add_extra_legend_item (clear_all_axes st) name handle label ≠
      Except.error (PyError.valueError msg)) := by
  refine ⟨?_, ?_, ?_⟩
  · intro hmem
    have hh : pyGet? (initRegistries grouped).additionalHandles name = some [] :=
      pyGet?_map_nil_entry _ name hmem
    have hl : pyGet? (initRegistries grouped).additionalLabels name = some [] :=
      pyGet?_map_nil_entry _ name hmem
    refine ⟨hh, hl, ?_⟩
    unfold add_extra_legend_item
    rw [hh]
    dsimp only
    rw [hl]
    exact ⟨_, rfl⟩
  · rfl
  · intro msg h
    cases h

/-- C10 witness for the default single-axis layout. -/
theorem extra_item_registries_after_clear_witness :
    add_extra_legend_item
      (clear_all_axes { additionalHandles := [("ax1-1", [])]
                        additionalLabels := [("ax1-1", [])] })
      "ax1-1" 3 "x" = Except.error (PyError.keyError "ax1-1") :=
  (extra_item_registries_after_clear [("ax1-1", [(("ax1-1" : String), (0 : Nat))])]
    "ax1-1" 3 "x" _).2.1

end NGP
